import Mathlib

/-!
Shallow embedding of the core transformation pipeline of
`scripts/download_sheet_and_build.py`: row materialization
(the pure tail of `fetch_sheet_values`), numeric coercion and
per-row enrichment (`to_float`, `compute_numeric_fields`), and
grouping (`build_dashboard_json`).

Modelling conventions:
* A Python `dict` with string keys is an insertion-ordered association
  list `List (String × Value)`; `dget` is `dict.get` (first — and by
  construction only — binding wins), `dinsert` is `dict.__setitem__`
  (update in place if the key is present, else append at the end).
* Cell values and the values stored in rows are `Value`: either a text
  cell (`Value.str`) or a number written by the enrichment step
  (`Value.num`).  Python floats are modelled as exact rationals `ℚ`;
  `round(x, n)` is round-half-to-even at `n` decimal digits of the
  exact rational.  Binary-double artifacts, infinities and NaN are
  outside this rational model.
* `float(str(x))` on a float `x` round-trips exactly in Python 3, so
  `to_float` on a `Value.num q` returns `q`; on an absent field
  (Python `None`, whose `str` is the unparseable `"None"`) it returns
  `0` exactly as the `except` branch does.
-/

inductive Value where
  | str (s : String)
  | num (q : ℚ)
deriving DecidableEq

/-- A materialized row: a Python dict as an insertion-ordered assoc list. -/
abbrev Rec := List (String × Value)

/-- `dict.get k` / `dict[k]` lookup: the binding of the first (unique) occurrence. -/
def dget : Rec → String → Option Value
  | [], _ => none
  | (k0, v) :: rest, k => if k0 = k then some v else dget rest k

/-- `dict[k] = v`: replace the value in place if `k` is bound, else append. -/
def dinsert : Rec → String → Value → Rec
  | [], k, v => [(k, v)]
  | (k0, v0) :: rest, k, v =>
    if k0 = k then (k, v) :: rest else (k0, v0) :: dinsert rest k v

/-! ## Row materializer (pure tail of `fetch_sheet_values`, lines 55–62) -/

/-- `row_padded = row + [""] * (len(header) - len(row))` (line 59). -/
def padRow (header row : List String) : List String :=
  row ++ List.replicate (header.length - row.length) ""

/-- `dict(zip(header, row_padded))` (line 60): positional pairing, truncated
at the shorter list, built by repeated dict insertion (duplicate header
names: last value wins, first position kept, as in a Python dict). -/
def mkRecord (header row : List String) : Rec :=
  (header.zip (padRow header row)).foldl (fun d p => dinsert d p.1 (Value.str p.2)) []

/-- Lines 51–62 of `fetch_sheet_values` after the network call: empty grid
gives no rows, otherwise the first row is the header and every later row
becomes one record. -/
def rows_of_values : List (List String) → List Rec
  | [] => []
  | header :: rest => rest.map (mkRecord header)

/-! ## Numeric coercion (`to_float`, lines 70–74) -/

/-- Value of a string of decimal digits. -/
def digitsToNat (ds : List Char) : Nat :=
  ds.foldl (fun n c => 10 * n + (c.toNat - 48)) 0

/-- CPython decimal `float` literal grammar on an already-stripped string:
`[sign] (digits [. digits] | . digits) [(e|E) [sign] digits]`, `none` on
any malformed input (this is the parse that `float(...)` attempts after
the comma removal and strip; the underscore, infinity and NaN forms fall
outside the rational model and are treated as malformed).  Returns the
parsed pieces: the signed mantissa digits read as an integer, the number
of fractional digits, and the signed decimal exponent. -/
def parseParts? (cs0 : List Char) : Option (Int × Nat × Int) :=
  let sp : Int × List Char :=
    match cs0 with
    | '+' :: rest => (1, rest)
    | '-' :: rest => (-1, rest)
    | _ => (1, cs0)
  let sgn := sp.1
  let cs1 := sp.2
  let ip := cs1.takeWhile Char.isDigit
  let cs2 := cs1.dropWhile Char.isDigit
  let fr : List Char × List Char :=
    match cs2 with
    | '.' :: rest => (rest.takeWhile Char.isDigit, rest.dropWhile Char.isDigit)
    | _ => ([], cs2)
  let fp := fr.1
  let cs3 := fr.2
  if ip = [] ∧ fp = [] then none
  else
    let mant : Int := sgn * (digitsToNat (ip ++ fp) : Int)
    match cs3 with
    | [] => some (mant, fp.length, 0)
    | c :: rest =>
      if c = 'e' ∨ c = 'E' then
        let esp : Int × List Char :=
          match rest with
          | '+' :: r2 => (1, r2)
          | '-' :: r2 => (-1, r2)
          | _ => (1, rest)
        let ed := esp.2.takeWhile Char.isDigit
        let cs4 := esp.2.dropWhile Char.isDigit
        if ed = [] ∨ cs4 ≠ [] then none
        else some (mant, fp.length, esp.1 * (digitsToNat ed : Int))
      else none

/-- The rational value of a parsed decimal literal: mantissa scaled down
by the fractional digits and up by the decimal exponent; `none` on any
malformed input. -/
def parseFloat? (cs : List Char) : Option ℚ :=
  (parseParts? cs).map (fun t => (t.1 : ℚ) / (10 : ℚ) ^ t.2.1 * (10 : ℚ) ^ t.2.2)

/-- Python `str.strip()`: drop whitespace from both ends. -/
def pyStrip (cs : List Char) : List Char :=
  ((cs.dropWhile Char.isWhitespace).reverse.dropWhile Char.isWhitespace).reverse

/-- `str(x).replace(",", "").strip()` (line 72), for a text cell. -/
def normalizeNum (s : String) : List Char :=
  pyStrip (s.toList.filter (fun c => decide (c ≠ ',')))

/-- `to_float` (lines 70–74): total numeric coercion.  `row.get(...)`
yields `none` for an absent key; `str(None) = "None"` never parses, so
the `except` branch returns `0.0`.  A stored float round-trips through
`str`, and a text cell goes through comma removal, strip and `float`;
every parse failure lands in the `except` branch and returns `0.0`. -/
def to_float : Option Value → ℚ
  | none => 0
  | some (Value.num q) => q
  | some (Value.str s) => (parseFloat? (normalizeNum s)).getD 0

/-! ## Rounding (`round(x, n)` on the exact value) -/

/-- Floor of a rational, via floored integer division. -/
def rfloor (q : ℚ) : Int :=
  Int.fdiv q.num (q.den : Int)

/-- Round to the nearest integer, ties to the even integer. -/
def roundHalfEven (q : ℚ) : Int :=
  let f := rfloor q
  let r := q - (f : ℚ)
  if r < 1 / 2 then f
  else if 1 / 2 < r then f + 1
  else if f % 2 = 0 then f else f + 1

/-- Python `round(q, n)` on the exact rational value. -/
def pyRound (q : ℚ) (n : Nat) : ℚ :=
  (roundHalfEven (q * (10 : ℚ) ^ n) : ℚ) / (10 : ℚ) ^ n

/-! ## Enrichment (`compute_numeric_fields`, lines 65–95) -/

/-- Coercion of one named source field of a row: `to_float(row.get(f))`. -/
def sourceNum (row : Rec) (f : String) : ℚ :=
  to_float (dget row f)

/-- The per-row body of the `for row in rows` loop (lines 76–93): read the
six source fields, derive the four values, store them under the fixed
derived-field names in this order. -/
def enrich (row : Rec) : Rec :=
  let m3 := sourceNum row "material_moved_m3"
  let g := sourceNum row "gold_grams"
  let gold_price := sourceNum row "gold_price_usd_per_g"
  let diesel_cost := sourceNum row "diesel_cost_usd"
  let labour_cost := sourceNum row "labour_cost_usd"
  let other_cost := sourceNum row "other_cost_usd"
  let avg_grade : ℚ := if 0 < m3 then g / m3 else 0
  let revenue := g * gold_price
  let total_cost := diesel_cost + labour_cost + other_cost
  let profit := revenue - total_cost
  dinsert (dinsert (dinsert (dinsert row
    "avg_grade_g_per_m3" (Value.num (pyRound avg_grade 3)))
    "revenue_usd" (Value.num (pyRound revenue 2)))
    "total_cost_usd" (Value.num (pyRound total_cost 2)))
    "profit_usd" (Value.num (pyRound profit 2))

/-- `compute_numeric_fields`: enrich every row. -/
def compute_numeric_fields (rows : List Rec) : List Rec :=
  rows.map enrich

/-! ## Grouping (`build_dashboard_json`, lines 98–119) -/

structure LineGroup where
  line_id : Value
  line_name : Value
  location : Value
  records : List Rec
deriving DecidableEq

structure Dashboard where
  lines : List LineGroup
deriving DecidableEq

/-- `r.get("line_id", "UNKNOWN")` (line 106): the group key of a record. -/
def keyOf (r : Rec) : Value :=
  (dget r "line_id").getD (Value.str "UNKNOWN")

/-- The group created on first encounter of a key (lines 108–113), already
holding its first record. -/
def newGroup (r : Rec) : LineGroup :=
  { line_id := keyOf r
    line_name := (dget r "line_name").getD (Value.str "")
    location := (dget r "location").getD (Value.str "")
    records := [r] }

/-- One iteration of the `for r in rows` loop (lines 105–114) on the
insertion-ordered map `by_line`: create the group if the key is new
(appended at the end), then append the record to its group. -/
def addRec : List (Value × LineGroup) → Rec → List (Value × LineGroup)
  | [], r => [(keyOf r, newGroup r)]
  | (k, g) :: rest, r =>
    if keyOf r = k then (k, { g with records := g.records ++ [r] }) :: rest
    else (k, g) :: addRec rest r

/-- `build_dashboard_json`: fold the loop over the rows, then
`list(by_line.values())` wrapped in the single-field document. -/
def build_dashboard_json (rows : List Rec) : Dashboard :=
  { lines := (rows.foldl addRec []).map Prod.snd }

/-! ## Spec-side characterization of grouping

These definitions restate, in direct form, what first-encounter-order
grouping means; the theorems below prove `build_dashboard_json`
equal to them. -/

/-- First-occurrence deduplication: the distinct keys in the order each
one is first encountered. -/
def firstDedup : List Value → List Value
  | [] => []
  | k :: ks => k :: (firstDedup ks).filter (fun x => decide (x ≠ k))

/-- The descriptive field a group inherits: read from the first record of
the input whose key matches (the default `""` when that record lacks the
field). -/
def descOf (rows : List Rec) (k : Value) (f : String) : Value :=
  match rows.find? (fun r => decide (keyOf r = k)) with
  | some r => (dget r f).getD (Value.str "")
  | none => Value.str ""

/-- The group a key ends up with: descriptive fields from the first
matching record, and all matching records in input order. -/
def groupAt (rows : List Rec) (k : Value) : LineGroup :=
  { line_id := k
    line_name := descOf rows k "line_name"
    location := descOf rows k "location"
    records := rows.filter (fun r => decide (keyOf r = k)) }

/-- The grouped map in spec form: one entry per distinct key in
first-encounter order. -/
def groupedOf (rows : List Rec) : List (Value × LineGroup) :=
  (firstDedup (rows.map keyOf)).map (fun k => (k, groupAt rows k))

/-- The six source fields the enrichment step coerces. -/
def sourceFields : List String :=
  ["material_moved_m3", "gold_grams", "gold_price_usd_per_g",
   "diesel_cost_usd", "labour_cost_usd", "other_cost_usd"]

/-! ## Dictionary lemmas -/

theorem dget_dinsert (d : Rec) (k : String) (v : Value) (x : String) :
    dget (dinsert d k v) x = if k = x then some v else dget d x := by
  induction d with
  | nil => simp [dinsert, dget]
  | cons hd rest ih =>
    obtain ⟨k0, v0⟩ := hd
    by_cases h : k0 = k
    · subst h
      by_cases hx : k0 = x <;> simp [dinsert, dget, hx]
    · by_cases hx : k0 = x
      · subst hx
        have : ¬ k = k0 := fun hkk => h hkk.symm
        simp [dinsert, dget, h, this]
      · simp [dinsert, dget, h, hx, ih]

/-! ## Enrichment lemmas: the four stored derived fields -/

theorem enrich_avg_grade (row : Rec) :
    dget (enrich row) "avg_grade_g_per_m3" =
      some (Value.num (pyRound
        (if 0 < sourceNum row "material_moved_m3" then
          sourceNum row "gold_grams" / sourceNum row "material_moved_m3"
        else 0) 3)) := by
  simp [enrich, dget_dinsert]

theorem enrich_revenue (row : Rec) :
    dget (enrich row) "revenue_usd" =
      some (Value.num (pyRound
        (sourceNum row "gold_grams" * sourceNum row "gold_price_usd_per_g") 2)) := by
  simp [enrich, dget_dinsert]

theorem enrich_total_cost (row : Rec) :
    dget (enrich row) "total_cost_usd" =
      some (Value.num (pyRound
        (sourceNum row "diesel_cost_usd" + sourceNum row "labour_cost_usd"
          + sourceNum row "other_cost_usd") 2)) := by
  simp [enrich, dget_dinsert]

theorem enrich_profit (row : Rec) :
    dget (enrich row) "profit_usd" =
      some (Value.num (pyRound
        (sourceNum row "gold_grams" * sourceNum row "gold_price_usd_per_g"
          - (sourceNum row "diesel_cost_usd" + sourceNum row "labour_cost_usd"
            + sourceNum row "other_cost_usd")) 2)) := by
  simp [enrich, dget_dinsert]

theorem sourceNum_enrich (row : Rec) (f : String) (hf : f ∈ sourceFields) :
    sourceNum (enrich row) f = sourceNum row f := by
  fin_cases hf <;> simp [sourceNum, enrich, dget_dinsert]

/-- Claim C1: for every record, enrichment stores exactly the four derived
fields: `avg_grade_g_per_m3` is mass over volume when the volume is
positive and `0.0` otherwise, rounded to 3 decimals; `revenue_usd` is
mass times unit price rounded to 2; `total_cost_usd` is the sum of the
three cost components rounded to 2; `profit_usd` is revenue minus total
cost rounded to 2; the five source quantities come from numeric coercion
of the named fields. -/
theorem enrich_computes_derived_fields (row : Rec) :
    dget (enrich row) "avg_grade_g_per_m3" =
      some (Value.num (pyRound
        (if 0 < to_float (dget row "material_moved_m3") then
          to_float (dget row "gold_grams") / to_float (dget row "material_moved_m3")
        else 0) 3)) ∧
    dget (enrich row) "revenue_usd" =
      some (Value.num (pyRound
        (to_float (dget row "gold_grams") * to_float (dget row "gold_price_usd_per_g")) 2)) ∧
    dget (enrich row) "total_cost_usd" =
      some (Value.num (pyRound
        (to_float (dget row "diesel_cost_usd") + to_float (dget row "labour_cost_usd")
          + to_float (dget row "other_cost_usd")) 2)) ∧
    dget (enrich row) "profit_usd" =
      some (Value.num (pyRound
        (to_float (dget row "gold_grams") * to_float (dget row "gold_price_usd_per_g")
          - (to_float (dget row "diesel_cost_usd") + to_float (dget row "labour_cost_usd")
            + to_float (dget row "other_cost_usd"))) 2)) :=
  ⟨enrich_avg_grade row, enrich_revenue row, enrich_total_cost row, enrich_profit row⟩

/-- Claim C2: numeric coercion is total and lenient — it is a total Lean
function; every parse failure (the `except` branch) yields exactly `0`,
indistinguishable from a textual zero; thousands-separator commas are
removed before parsing, so `"1,234.5"` coerces to `1234.5`; the empty
string, garbage text and an absent value all coerce to `0`. -/
theorem to_float_total_and_lenient :
    (∀ s : String, parseFloat? (normalizeNum s) = none →
      to_float (some (Value.str s)) = 0) ∧
    to_float (some (Value.str "1,234.5")) = (1234.5 : ℚ) ∧
    to_float (some (Value.str "")) = 0 ∧
    to_float (some (Value.str "not a number")) = 0 ∧
    to_float (some (Value.str "0")) = 0 ∧
    to_float none = 0 := by
  refine ⟨fun s hs => ?_, ?_, ?_, ?_, ?_, rfl⟩
  · simp [to_float, hs]
  · have h : parseParts? (normalizeNum "1,234.5") = some (12345, 1, 0) := by decide
    simp [to_float, parseFloat?, h]
    norm_num
  · have h : parseParts? (normalizeNum "") = none := by decide
    simp [to_float, parseFloat?, h]
  · have h : parseParts? (normalizeNum "not a number") = none := by decide
    simp [to_float, parseFloat?, h]
  · have h : parseParts? (normalizeNum "0") = some (0, 0, 0) := by decide
    simp [to_float, parseFloat?, h]

theorem to_float_total_and_lenient_witness :
    to_float (some (Value.str "None")) = 0 :=
  to_float_total_and_lenient.1 "None" (by
    have h : parseParts? (normalizeNum "None") = none := by decide
    simp [parseFloat?, h])

/-- Claim C8: a source field that is absent behaves exactly like one that
is present but unparseable — both coerce to `0` and the four derived
values of the enriched record are identical in the two cases. -/
theorem absent_source_field_eq_unparseable (row : Rec) (k s : String)
    (hk : k ∈ sourceFields)
    (habsent : dget row k = none)
    (hbad : parseFloat? (normalizeNum s) = none) :
    dget (enrich (dinsert row k (Value.str s))) "avg_grade_g_per_m3"
      = dget (enrich row) "avg_grade_g_per_m3" ∧
    dget (enrich (dinsert row k (Value.str s))) "revenue_usd"
      = dget (enrich row) "revenue_usd" ∧
    dget (enrich (dinsert row k (Value.str s))) "total_cost_usd"
      = dget (enrich row) "total_cost_usd" ∧
    dget (enrich (dinsert row k (Value.str s))) "profit_usd"
      = dget (enrich row) "profit_usd" := by
  have hsn : ∀ f : String, sourceNum (dinsert row k (Value.str s)) f = sourceNum row f := by
    intro f
    by_cases hf : k = f
    · subst hf
      simp [sourceNum, dget_dinsert, habsent, to_float, hbad]
    · simp [sourceNum, dget_dinsert, hf]
  refine ⟨?_, ?_, ?_, ?_⟩
  · rw [enrich_avg_grade, enrich_avg_grade, hsn, hsn]
  · rw [enrich_revenue, enrich_revenue, hsn, hsn]
  · rw [enrich_total_cost, enrich_total_cost, hsn, hsn, hsn]
  · rw [enrich_profit, enrich_profit, hsn, hsn, hsn, hsn, hsn]

theorem absent_source_field_eq_unparseable_witness :
    dget (enrich (dinsert [] "gold_grams" (Value.str "abc"))) "revenue_usd"
      = dget (enrich []) "revenue_usd" :=
  (absent_source_field_eq_unparseable [] "gold_grams" "abc"
    (by decide) rfl (by
      have h : parseParts? (normalizeNum "abc") = none := by decide
      simp [parseFloat?, h])).2.1

/-- Claim C9: enrichment is idempotent on the derived fields — re-running
`enrich` on an already-enriched record recomputes the four derived values
from the unchanged source fields and stores the same values. -/
theorem enrich_idempotent_on_derived (row : Rec) :
    dget (enrich (enrich row)) "avg_grade_g_per_m3"
      = dget (enrich row) "avg_grade_g_per_m3" ∧
    dget (enrich (enrich row)) "revenue_usd" = dget (enrich row) "revenue_usd" ∧
    dget (enrich (enrich row)) "total_cost_usd" = dget (enrich row) "total_cost_usd" ∧
    dget (enrich (enrich row)) "profit_usd" = dget (enrich row) "profit_usd" := by
  have hsn : ∀ f ∈ sourceFields, sourceNum (enrich row) f = sourceNum row f :=
    sourceNum_enrich row
  refine ⟨?_, ?_, ?_, ?_⟩
  · rw [enrich_avg_grade, enrich_avg_grade,
      hsn "material_moved_m3" (by simp [sourceFields]),
      hsn "gold_grams" (by simp [sourceFields])]
  · rw [enrich_revenue, enrich_revenue,
      hsn "gold_grams" (by simp [sourceFields]),
      hsn "gold_price_usd_per_g" (by simp [sourceFields])]
  · rw [enrich_total_cost, enrich_total_cost,
      hsn "diesel_cost_usd" (by simp [sourceFields]),
      hsn "labour_cost_usd" (by simp [sourceFields]),
      hsn "other_cost_usd" (by simp [sourceFields])]
  · rw [enrich_profit, enrich_profit,
      hsn "gold_grams" (by simp [sourceFields]),
      hsn "gold_price_usd_per_g" (by simp [sourceFields]),
      hsn "diesel_cost_usd" (by simp [sourceFields]),
      hsn "labour_cost_usd" (by simp [sourceFields]),
      hsn "other_cost_usd" (by simp [sourceFields])]

/-! ## Materializer lemmas -/

theorem getD_replicate_lt {α : Type} (a d : α) (n i : Nat) (h : i < n) :
    (List.replicate n a).getD i d = a := by
  induction n generalizing i with
  | zero => omega
  | succ m ih =>
    cases i with
    | zero => simp [List.replicate]
    | succ j => simpa [List.replicate] using ih j (by omega)

theorem dget_foldl_isSome (ps : List (String × String)) (d : Rec) (k : String) :
    (dget (ps.foldl (fun acc p => dinsert acc p.1 (Value.str p.2)) d) k).isSome = true
      ↔ k ∈ ps.map Prod.fst ∨ (dget d k).isSome = true := by
  induction ps generalizing d with
  | nil => simp
  | cons p ps ih =>
    simp only [List.foldl_cons, List.map_cons, List.mem_cons]
    rw [ih]
    by_cases hk : p.1 = k
    · simp [dget_dinsert, hk]
    · have hk2 : ¬ k = p.1 := fun hkk => hk hkk.symm
      simp [dget_dinsert, hk, hk2]

theorem zip_take_self {α β : Type} :
    ∀ (l1 : List α) (l2 : List β), l1.zip (l2.take l1.length) = l1.zip l2 := by
  intro l1
  induction l1 with
  | nil => intro l2; simp
  | cons a t ih =>
    intro l2
    cases l2 with
    | nil => simp
    | cons b t2 => simp [ih]

/-- Claim C5: a data row shorter than the header is padded on the right
with empty-string cells up to the header length before positional
pairing; the resulting record has a value exactly for the header's
fields (so every record from the same grid has the header's key set). -/
theorem short_rows_padded_to_header (header row : List String)
    (h : row.length < header.length) :
    (padRow header row).length = header.length ∧
    (∀ i, row.length ≤ i → i < header.length → (padRow header row).getD i "?" = "") ∧
    (∀ k, (dget (mkRecord header row) k).isSome = true ↔ k ∈ header) := by
  refine ⟨?_, ?_, ?_⟩
  · rw [padRow]
    simp only [List.length_append, List.length_replicate]
    omega
  · intro i h1 h2
    rw [padRow, List.getD_append_right _ _ _ _ h1]
    refine getD_replicate_lt _ _ _ _ ?_
    omega
  · intro k
    have hlen : header.length ≤ (padRow header row).length := by
      rw [padRow]
      simp only [List.length_append, List.length_replicate]
      omega
    rw [mkRecord, dget_foldl_isSome, List.map_fst_zip _ _ hlen]
    simp [dget]

theorem short_rows_padded_to_header_witness :
    (dget (mkRecord ["a", "b"] ["x"]) "b").isSome = true :=
  ((short_rows_padded_to_header ["a", "b"] ["x"] (by decide)).2.2 "b").mpr (by decide)

/-- Claim C6: a data row longer than the header loses its extra trailing
cells — positional pairing stops at the header length, so the record
built from the row equals the record built from its truncation to the
header length. -/
theorem long_rows_truncated_to_header (header row : List String)
    (h : header.length < row.length) :
    mkRecord header row = mkRecord header (row.take header.length) := by
  have h1 : padRow header row = row := by
    rw [padRow, Nat.sub_eq_zero_of_le (le_of_lt h)]
    simp
  have h2 : padRow header (row.take header.length) = row.take header.length := by
    have hl : (row.take header.length).length = header.length := by
      simp only [List.length_take]
      omega
    rw [padRow, hl, Nat.sub_self]
    simp
  rw [mkRecord, mkRecord, h1, h2, zip_take_self]

theorem long_rows_truncated_to_header_witness :
    mkRecord ["a"] ["x", "y"] = mkRecord ["a"] (["x", "y"].take 1) :=
  long_rows_truncated_to_header ["a"] ["x", "y"] (by decide)

/-! ## Grouping lemmas -/

theorem sum_records_addRec (L : List (Value × LineGroup)) (r : Rec) :
    ((addRec L r).map (fun e => e.2.records.length)).sum
      = (L.map (fun e => e.2.records.length)).sum + 1 := by
  induction L with
  | nil => simp [addRec, newGroup]
  | cons e rest ih =>
    obtain ⟨k, g⟩ := e
    by_cases h : keyOf r = k
    · simp only [addRec, if_pos h, List.map_cons, List.sum_cons, List.length_append]
      simp
      omega
    · simp only [addRec, if_neg h, List.map_cons, List.sum_cons, ih]
      omega

theorem sum_records_foldl_addRec (rows : List Rec) (L : List (Value × LineGroup)) :
    (((rows.foldl addRec L).map (fun e => e.2.records.length)).sum)
      = (L.map (fun e => e.2.records.length)).sum + rows.length := by
  induction rows generalizing L with
  | nil => simp
  | cons r rows ih =>
    simp only [List.foldl_cons, ih, sum_records_addRec, List.length_cons]
    omega

/-- Claim C3: grouping partitions the input — the total number of records
over all groups of the output equals the number of input records. -/
theorem grouping_preserves_record_count (rows : List Rec) :
    (((build_dashboard_json rows).lines).map (fun g => g.records.length)).sum
      = rows.length := by
  rw [build_dashboard_json]
  simp only [List.map_map]
  have h := sum_records_foldl_addRec rows []
  simpa [Function.comp] using h

/-- Claim C7: the group key defaults to the sentinel `"UNKNOWN"` only when
the `line_id` key is absent from the record; a present empty-string value
is kept as the group key, a valid key distinct from the sentinel. -/
theorem empty_line_id_is_distinct_group_key (r : Rec) :
    (dget r "line_id" = none → keyOf r = Value.str "UNKNOWN") ∧
    (∀ v, dget r "line_id" = some v → keyOf r = v) ∧
    (dget r "line_id" = some (Value.str "") →
      (build_dashboard_json [r]).lines.map LineGroup.line_id = [Value.str ""] ∧
      Value.str "" ≠ Value.str "UNKNOWN") := by
  refine ⟨fun h => ?_, fun v h => ?_, fun h => ⟨?_, by decide⟩⟩
  · rw [keyOf, h]
    rfl
  · rw [keyOf, h]
    rfl
  · simp [build_dashboard_json, addRec, newGroup, keyOf, h]

theorem empty_line_id_is_distinct_group_key_witness :
    (build_dashboard_json [[("line_id", Value.str "")]]).lines.map LineGroup.line_id
      = [Value.str ""] ∧ Value.str "" ≠ Value.str "UNKNOWN" :=
  (empty_line_id_is_distinct_group_key [("line_id", Value.str "")]).2.2 (by decide)

/-- Claim C10: a record whose `line_id` is the literal string `"UNKNOWN"`
is grouped together with a record whose `line_id` key is absent — the
defaulted sentinel group and a genuine `"UNKNOWN"` group are one and the
same. -/
theorem unknown_sentinel_collision (r1 r2 : Rec)
    (h1 : dget r1 "line_id" = some (Value.str "UNKNOWN"))
    (h2 : dget r2 "line_id" = none) :
    keyOf r1 = keyOf r2 ∧
    (build_dashboard_json [r1, r2]).lines =
      [{ line_id := Value.str "UNKNOWN",
         line_name := (dget r1 "line_name").getD (Value.str ""),
         location := (dget r1 "location").getD (Value.str ""),
         records := [r1, r2] }] := by
  have e1 : keyOf r1 = Value.str "UNKNOWN" := by
    rw [keyOf, h1]
    rfl
  have e2 : keyOf r2 = Value.str "UNKNOWN" := by
    rw [keyOf, h2]
    rfl
  refine ⟨by rw [e1, e2], ?_⟩
  simp [build_dashboard_json, addRec, newGroup, e1, e2]

theorem unknown_sentinel_collision_witness :
    keyOf [("line_id", Value.str "UNKNOWN")] = keyOf [] :=
  (unknown_sentinel_collision [("line_id", Value.str "UNKNOWN")] [] (by decide) rfl).1

theorem mem_firstDedup (xs : List Value) (k : Value) :
    k ∈ firstDedup xs ↔ k ∈ xs := by
  induction xs with
  | nil => simp [firstDedup]
  | cons x xs ih =>
    simp only [firstDedup, List.mem_cons, List.mem_filter, decide_eq_true_eq]
    constructor
    · rintro (rfl | ⟨hk, _⟩)
      · exact Or.inl rfl
      · exact Or.inr (ih.mp hk)
    · rintro (rfl | hk)
      · exact Or.inl rfl
      · by_cases hx : k = x
        · exact Or.inl hx
        · exact Or.inr ⟨ih.mpr hk, hx⟩

theorem nodup_firstDedup (xs : List Value) : (firstDedup xs).Nodup := by
  induction xs with
  | nil => simp [firstDedup]
  | cons x xs ih =>
    rw [firstDedup, List.nodup_cons]
    constructor
    · intro hmem
      have hx := (List.mem_filter.mp hmem).2
      simp at hx
    · exact ih.filter _

theorem firstDedup_append_not_mem (xs : List Value) (k : Value) (h : k ∉ xs) :
    firstDedup (xs ++ [k]) = firstDedup xs ++ [k] := by
  induction xs with
  | nil => simp [firstDedup]
  | cons x xs ih =>
    have hx : k ≠ x := fun hkx => h (by simp [hkx])
    have hxs : k ∉ xs := fun hk => h (by simp [hk])
    rw [List.cons_append, firstDedup, firstDedup, ih hxs, List.filter_append]
    simp [hx]

theorem firstDedup_append_mem (xs : List Value) (k : Value) (h : k ∈ xs) :
    firstDedup (xs ++ [k]) = firstDedup xs := by
  induction xs with
  | nil => simp at h
  | cons x xs ih =>
    rw [List.cons_append, firstDedup, firstDedup]
    by_cases hxs : k ∈ xs
    · rw [ih hxs]
    · have hx : k = x := by
        rcases List.mem_cons.mp h with h1 | h1
        · exact h1
        · exact absurd h1 hxs
      subst hx
      rw [firstDedup_append_not_mem xs k hxs, List.filter_append]
      simp

theorem descOf_append_mem (rows : List Rec) (r : Rec) (k : Value) (f : String)
    (h : k ∈ rows.map keyOf) :
    descOf (rows ++ [r]) k f = descOf rows k f := by
  have hsome : (rows.find? (fun x => decide (keyOf x = k))).isSome = true := by
    rw [List.find?_isSome]
    rcases List.mem_map.mp h with ⟨x, hx, rfl⟩
    exact ⟨x, hx, by simp⟩
  obtain ⟨x, hx⟩ := Option.isSome_iff_exists.mp hsome
  rw [descOf, descOf, List.find?_append, hx]
  rfl

theorem descOf_append_self (rows : List Rec) (r : Rec) (f : String)
    (h : keyOf r ∉ rows.map keyOf) :
    descOf (rows ++ [r]) (keyOf r) f = (dget r f).getD (Value.str "") := by
  have hnone : rows.find? (fun x => decide (keyOf x = keyOf r)) = none := by
    rw [List.find?_eq_none]
    intro x hx
    simp only [decide_eq_true_eq]
    exact fun hxx => h (List.mem_map.mpr ⟨x, hx, hxx⟩)
  rw [descOf, List.find?_append, hnone]
  simp [List.find?]

theorem filter_key_append_ne (rows : List Rec) (r : Rec) (k : Value)
    (h : k ≠ keyOf r) :
    (rows ++ [r]).filter (fun x => decide (keyOf x = k))
      = rows.filter (fun x => decide (keyOf x = k)) := by
  rw [List.filter_append]
  have hd : decide (keyOf r = k) = false := by
    simp only [decide_eq_false_iff_not]
    exact fun hk => h hk.symm
  simp [List.filter, hd]

theorem filter_key_append_self (rows : List Rec) (r : Rec) :
    (rows ++ [r]).filter (fun x => decide (keyOf x = keyOf r))
      = rows.filter (fun x => decide (keyOf x = keyOf r)) ++ [r] := by
  rw [List.filter_append]
  congr 1
  simp [List.filter]

theorem filter_key_nil_of_not_mem (rows : List Rec) (k : Value)
    (h : k ∉ rows.map keyOf) :
    rows.filter (fun x => decide (keyOf x = k)) = [] := by
  rw [List.filter_eq_nil_iff]
  intro x hx
  simp only [decide_eq_true_eq]
  exact fun hxx => h (List.mem_map.mpr ⟨x, hx, hxx⟩)

theorem groupAt_append_ne (rows : List Rec) (r : Rec) (k : Value)
    (hk : k ∈ rows.map keyOf) (hne : k ≠ keyOf r) :
    groupAt (rows ++ [r]) k = groupAt rows k := by
  rw [groupAt, groupAt, descOf_append_mem _ _ _ _ hk, descOf_append_mem _ _ _ _ hk,
    filter_key_append_ne _ _ _ hne]

theorem groupAt_append_self_new (rows : List Rec) (r : Rec)
    (h : keyOf r ∉ rows.map keyOf) :
    groupAt (rows ++ [r]) (keyOf r) = newGroup r := by
  rw [groupAt, newGroup, descOf_append_self _ _ _ h, descOf_append_self _ _ _ h,
    filter_key_append_self, filter_key_nil_of_not_mem _ _ h]
  simp

theorem groupAt_append_self_mem (rows : List Rec) (r : Rec)
    (h : keyOf r ∈ rows.map keyOf) :
    groupAt (rows ++ [r]) (keyOf r)
      = { line_id := keyOf r
          line_name := descOf rows (keyOf r) "line_name"
          location := descOf rows (keyOf r) "location"
          records := rows.filter (fun x => decide (keyOf x = keyOf r)) ++ [r] } := by
  rw [groupAt, descOf_append_mem _ _ _ _ h, descOf_append_mem _ _ _ _ h,
    filter_key_append_self]

theorem addRec_not_mem (L : List (Value × LineGroup)) (r : Rec)
    (h : ∀ e ∈ L, e.1 ≠ keyOf r) :
    addRec L r = L ++ [(keyOf r, newGroup r)] := by
  induction L with
  | nil => rfl
  | cons e rest ih =>
    obtain ⟨k, g⟩ := e
    have hk : ¬ keyOf r = k := fun hkk => h (k, g) (by simp) hkk.symm
    simp only [addRec, if_neg hk, List.cons_append]
    rw [ih (fun e he => h e (by simp [he]))]

theorem addRec_map_update (ks : List Value) (F : Value → LineGroup) (r : Rec)
    (hnd : ks.Nodup) (hk : keyOf r ∈ ks) :
    addRec (ks.map (fun k => (k, F k))) r
      = ks.map (fun k => (k, if k = keyOf r then
          { F k with records := (F k).records ++ [r] } else F k)) := by
  induction ks with
  | nil => simp at hk
  | cons k0 ks ih =>
    rw [List.nodup_cons] at hnd
    simp only [List.map_cons]
    by_cases h0 : keyOf r = k0
    · subst h0
      rw [addRec, if_pos (rfl : keyOf r = keyOf r), if_pos (rfl : keyOf r = keyOf r)]
      congr 1
      refine List.map_congr_left (fun a ha => ?_)
      have hane : ¬ a = keyOf r := fun hx => hnd.1 (hx ▸ ha)
      rw [if_neg hane]
    · have h1 : ¬ k0 = keyOf r := fun hx => h0 hx.symm
      rw [addRec, if_neg h0, if_neg h1]
      congr 1
      have hk2 : keyOf r ∈ ks := by
        rcases List.mem_cons.mp hk with h2 | h2
        · exact absurd h2 h0
        · exact h2
      exact ih hnd.2 hk2

theorem addRec_groupedOf (rows : List Rec) (r : Rec) :
    addRec (groupedOf rows) r = groupedOf (rows ++ [r]) := by
  by_cases hmem : keyOf r ∈ rows.map keyOf
  · rw [groupedOf, groupedOf, List.map_append]
    simp only [List.map_cons, List.map_nil]
    rw [firstDedup_append_mem _ _ hmem]
    rw [addRec_map_update _ _ _ (nodup_firstDedup _) ((mem_firstDedup _ _).mpr hmem)]
    refine List.map_congr_left (fun k hkmem => ?_)
    have hkxs : k ∈ rows.map keyOf := (mem_firstDedup _ _).mp hkmem
    by_cases hkr : k = keyOf r
    · subst hkr
      rw [if_pos rfl, groupAt_append_self_mem _ _ hkxs]
      rw [groupAt]
    · rw [if_neg hkr, groupAt_append_ne _ _ _ hkxs hkr]
  · rw [groupedOf, groupedOf, List.map_append]
    simp only [List.map_cons, List.map_nil]
    rw [firstDedup_append_not_mem _ _ hmem]
    rw [addRec_not_mem]
    · rw [List.map_append]
      congr 1
      · refine List.map_congr_left (fun k hkmem => ?_)
        have hkxs : k ∈ rows.map keyOf := (mem_firstDedup _ _).mp hkmem
        have hkr : k ≠ keyOf r := fun hx => hmem (hx ▸ hkxs)
        rw [groupAt_append_ne _ _ _ hkxs hkr]
      · simp only [List.map_cons, List.map_nil]
        rw [groupAt_append_self_new _ _ hmem]
    · intro e he
      rcases List.mem_map.mp he with ⟨k, hkmem, rfl⟩
      have hkxs : k ∈ rows.map keyOf := (mem_firstDedup _ _).mp hkmem
      exact fun hx => hmem (hx ▸ hkxs)

theorem foldl_addRec_groupedOf (rows : List Rec) :
    rows.foldl addRec [] = groupedOf rows := by
  induction rows using List.reverseRecOn with
  | nil => rfl
  | append_singleton rows r ih =>
    rw [List.foldl_append, ih]
    simp only [List.foldl_cons, List.foldl_nil]
    exact addRec_groupedOf rows r

/-- Claim C4: the output's groups appear in first-encounter order of the
group keys; each group's `line_name` and `location` come from the first
record encountered for that key (later records never override them); and
each group's records are exactly the input records with that key, in
input-encounter order. -/
theorem grouping_first_encounter_order (rows : List Rec) :
    (build_dashboard_json rows).lines
      = (firstDedup (rows.map keyOf)).map (groupAt rows) := by
  rw [build_dashboard_json, foldl_addRec_groupedOf, groupedOf, List.map_map]
  rfl
